import Mathlib

/-!
Shallow embedding of the message-handling core of
clang-tools-extra/clangd/ClangdLSPServer.cpp: the cancellation registry,
the reply guard, the outbound call table, dispatch gating, semantic-token
versioning, the diagnostic cross-reference cache, and the version
encode/decode helpers.
-/

namespace ClangdLSP

/-! ### Association-list maps

llvm::StringMap / llvm::DenseMap, restricted to the operations the embedded
code uses: find, insert-or-assign (operator[] followed by assignment), and
erase of the found iterator. Keys are compared for equality only.
-/

def assocFind {κ α : Type} [DecidableEq κ] : List (κ × α) → κ → Option α
  | [], _ => none
  | (k2, v) :: rest, k => if k2 = k then some v else assocFind rest k

def assocSet {κ α : Type} [DecidableEq κ] : List (κ × α) → κ → α → List (κ × α)
  | [], k, v => [(k, v)]
  | (k2, v2) :: rest, k, v =>
    if k2 = k then (k, v) :: rest else (k2, v2) :: assocSet rest k v

def assocErase {κ α : Type} [DecidableEq κ] : List (κ × α) → κ → List (κ × α)
  | [], _ => []
  | (k2, v2) :: rest, k => if k2 = k then rest else (k2, v2) :: assocErase rest k

/-! ### Cancellation registry (ClangdLSPServer.cpp:396-442)

`RequestCancelers : llvm::StringMap<std::pair<Canceler, unsigned>>` maps the
string form of a request id to the cancellation trigger and a cookie drawn
from `NextRequestCookie`. The canceler itself is opaque; we identify it by a
numeric token.
-/

structure CancelEntry where
  canceler : Nat
  cookie : Nat
deriving DecidableEq

structure CancelState where
  requestCancelers : List (String × CancelEntry)
  nextRequestCookie : Nat
deriving DecidableEq

def initialCancelState : CancelState := { requestCancelers := [], nextRequestCookie := 0 }

/-- The registration half of cancelableRequestContext (lines 424-432):
`auto Cookie = NextRequestCookie++; RequestCancelers[StrID] = (Task, Cookie)`.
Returns the cookie captured by the scope-exit cleanup. -/
def registerCancel (s : CancelState) (strID : String) (canceler : Nat) : Nat × CancelState :=
  let cookie := s.nextRequestCookie
  (cookie,
    { requestCancelers := assocSet s.requestCancelers strID ⟨canceler, cookie⟩,
      nextRequestCookie := cookie + 1 })

/-- The scope-exit cleanup of cancelableRequestContext (lines 436-441):
erase the entry for StrID only when its stored cookie equals the captured one. -/
def cleanupCancel (s : CancelState) (strID : String) (cookie : Nat) : CancelState :=
  match assocFind s.requestCancelers strID with
  | some e =>
    if e.cookie = cookie then
      { s with requestCancelers := assocErase s.requestCancelers strID }
    else s
  | none => s

/-- onCancel (lines 399-412). The argument is the id extracted from the
params object, already JSON-serialized to its string form; `none` models a
malformed request with no id field. Returns the canceler invoked, if any;
the registry itself is never modified here. -/
def onCancel (s : CancelState) (idStr : Option String) : Option Nat × CancelState :=
  match idStr with
  | none => (none, s)
  | some strID =>
    match assocFind s.requestCancelers strID with
    | some e => (some e.canceler, s)
    | none => (none, s)

/-- The events that touch the registry over the server's lifetime. -/
inductive CancelEvent where
  | reg (strID : String) (canceler : Nat)
  | cleanup (strID : String) (cookie : Nat)
  | cancel (idStr : Option String)
deriving DecidableEq

def stepCancel (s : CancelState) (e : CancelEvent) : CancelState :=
  match e with
  | .reg strID canceler => (registerCancel s strID canceler).2
  | .cleanup strID cookie => cleanupCancel s strID cookie
  | .cancel idStr => (onCancel s idStr).2

def runCancel (s : CancelState) (es : List CancelEvent) : CancelState :=
  es.foldl stepCancel s

/-! ### Association-list lemmas -/

section AssocLemmas

variable {κ α : Type} [DecidableEq κ]

@[simp] theorem assocFind_nil (k : κ) : assocFind ([] : List (κ × α)) k = none := rfl

@[simp] theorem assocFind_cons (k2 : κ) (v2 : α) (rest : List (κ × α)) (k : κ) :
    assocFind ((k2, v2) :: rest) k = if k2 = k then some v2 else assocFind rest k := rfl

@[simp] theorem assocSet_nil (k : κ) (v : α) : assocSet ([] : List (κ × α)) k v = [(k, v)] := rfl

@[simp] theorem assocSet_cons (k2 : κ) (v2 : α) (rest : List (κ × α)) (k : κ) (v : α) :
    assocSet ((k2, v2) :: rest) k v =
      if k2 = k then (k, v) :: rest else (k2, v2) :: assocSet rest k v := rfl

@[simp] theorem assocErase_nil (k : κ) : assocErase ([] : List (κ × α)) k = [] := rfl

@[simp] theorem assocErase_cons (k2 : κ) (v2 : α) (rest : List (κ × α)) (k : κ) :
    assocErase ((k2, v2) :: rest) k =
      if k2 = k then rest else (k2, v2) :: assocErase rest k := rfl

theorem assocFind_assocSet_self (m : List (κ × α)) (k : κ) (v : α) :
    assocFind (assocSet m k v) k = some v := by
  induction m with
  | nil => simp
  | cons p rest ih =>
    obtain ⟨k2, v2⟩ := p
    by_cases h : k2 = k <;> simp [h, ih]

theorem assocFind_assocSet_ne (m : List (κ × α)) (k k2 : κ) (v : α) (h : k2 ≠ k) :
    assocFind (assocSet m k v) k2 = assocFind m k2 := by
  have hk : ¬k = k2 := fun hh => h hh.symm
  induction m with
  | nil => simp [hk]
  | cons p rest ih =>
    obtain ⟨k3, v3⟩ := p
    by_cases h3 : k3 = k
    · subst h3
      simp [hk]
    · simp [h3, ih]

theorem mem_assocSet {m : List (κ × α)} {k : κ} {v : α} {p : κ × α}
    (h : p ∈ assocSet m k v) : p ∈ m ∨ p = (k, v) := by
  induction m with
  | nil => exact Or.inr (by simpa using h)
  | cons q rest ih =>
    obtain ⟨k2, v2⟩ := q
    by_cases h2 : k2 = k
    · simp only [assocSet_cons, if_pos h2, List.mem_cons] at h
      rcases h with h | h
      · exact Or.inr h
      · exact Or.inl (List.mem_cons_of_mem _ h)
    · simp only [assocSet_cons, if_neg h2, List.mem_cons] at h
      rcases h with h | h
      · exact Or.inl (by simp [h])
      · rcases ih h with h | h
        · exact Or.inl (List.mem_cons_of_mem _ h)
        · exact Or.inr h

theorem mem_keys_assocSet {m : List (κ × α)} {k a : κ} {v : α}
    (h : a ∈ (assocSet m k v).map Prod.fst) : a ∈ m.map Prod.fst ∨ a = k := by
  simp only [List.mem_map] at h
  obtain ⟨p, hp, hpa⟩ := h
  rcases mem_assocSet hp with h | h
  · exact Or.inl (hpa ▸ List.mem_map_of_mem _ h)
  · subst h
    exact Or.inr hpa.symm

theorem nodup_keys_assocSet {m : List (κ × α)} (k : κ) (v : α)
    (h : (m.map Prod.fst).Nodup) : ((assocSet m k v).map Prod.fst).Nodup := by
  induction m with
  | nil => simp
  | cons p rest ih =>
    obtain ⟨k2, v2⟩ := p
    simp only [List.map_cons, List.nodup_cons] at h
    by_cases h2 : k2 = k
    · subst h2
      simpa [List.nodup_cons] using h
    · simp only [assocSet_cons, if_neg h2, List.map_cons, List.nodup_cons]
      refine ⟨fun hm => ?_, ih h.2⟩
      rcases mem_keys_assocSet hm with hm | hm
      · exact h.1 hm
      · exact h2 hm

theorem assocSet_mem_nodup {m : List (κ × α)} {k : κ} {v : α} {p : κ × α}
    (hn : (m.map Prod.fst).Nodup) (h : p ∈ assocSet m k v) :
    p = (k, v) ∨ (p ∈ m ∧ p.1 ≠ k) := by
  induction m with
  | nil => simp only [assocSet_nil, List.mem_singleton] at h; exact Or.inl h
  | cons q rest ih =>
    obtain ⟨k2, v2⟩ := q
    simp only [List.map_cons, List.nodup_cons] at hn
    by_cases h2 : k2 = k
    · subst h2
      rw [assocSet_cons, if_pos rfl, List.mem_cons] at h
      rcases h with h | h
      · exact Or.inl h
      · refine Or.inr ⟨List.mem_cons_of_mem _ h, fun hk => ?_⟩
        exact hn.1 (hk ▸ List.mem_map_of_mem Prod.fst h)
    · simp only [assocSet_cons, if_neg h2, List.mem_cons] at h
      rcases h with h | h
      · exact Or.inr ⟨by simp [h], by simp [h, h2]⟩
      · rcases ih hn.2 h with h | h
        · exact Or.inl h
        · exact Or.inr ⟨List.mem_cons_of_mem _ h.1, h.2⟩

theorem assocErase_sublist (m : List (κ × α)) (k : κ) :
    List.Sublist (assocErase m k) m := by
  induction m with
  | nil => simp
  | cons p rest ih =>
    obtain ⟨k2, v2⟩ := p
    by_cases h2 : k2 = k
    · rw [assocErase_cons, if_pos h2]
      exact List.sublist_cons_self _ _
    · rw [assocErase_cons, if_neg h2]
      exact List.Sublist.cons₂ _ ih

theorem mem_assocErase {m : List (κ × α)} {k : κ} {p : κ × α}
    (h : p ∈ assocErase m k) : p ∈ m :=
  (assocErase_sublist m k).subset h

theorem nodup_keys_assocErase {m : List (κ × α)} (k : κ)
    (h : (m.map Prod.fst).Nodup) : ((assocErase m k).map Prod.fst).Nodup :=
  List.Nodup.sublist ((assocErase_sublist m k).map Prod.fst) h

theorem assocFind_mem {m : List (κ × α)} {k : κ} {v : α}
    (h : assocFind m k = some v) : (k, v) ∈ m := by
  induction m with
  | nil => simp at h
  | cons p rest ih =>
    obtain ⟨k2, v2⟩ := p
    rw [assocFind_cons] at h
    split at h
    · next heq =>
      cases h
      simp [heq]
    · exact List.mem_cons_of_mem _ (ih h)

theorem assocFind_of_mem {m : List (κ × α)} {k : κ} {v : α}
    (hn : (m.map Prod.fst).Nodup) (h : (k, v) ∈ m) : assocFind m k = some v := by
  induction m with
  | nil => simp at h
  | cons p rest ih =>
    obtain ⟨k2, v2⟩ := p
    simp only [List.map_cons, List.nodup_cons] at hn
    rcases List.mem_cons.mp h with h | h
    · rw [Prod.mk.injEq] at h
      obtain ⟨rfl, rfl⟩ := h.symm
      simp
    · have hne : k2 ≠ k := fun hk => hn.1 (hk ▸ List.mem_map_of_mem Prod.fst h)
      simp [hne, ih hn.2 h]

theorem assocFind_eq_none_iff {m : List (κ × α)} {k : κ} :
    assocFind m k = none ↔ k ∉ m.map Prod.fst := by
  induction m with
  | nil => simp
  | cons p rest ih =>
    obtain ⟨k2, v2⟩ := p
    by_cases h2 : k2 = k
    · subst h2
      simp
    · rw [assocFind_cons, if_neg h2, ih, List.map_cons]
      simp only [List.mem_cons, not_or]
      constructor
      · intro hk
        exact ⟨fun hh => h2 hh.symm, hk⟩
      · exact And.right

theorem assocFind_assocErase_self {m : List (κ × α)} (k : κ)
    (hn : (m.map Prod.fst).Nodup) : assocFind (assocErase m k) k = none := by
  induction m with
  | nil => simp
  | cons p rest ih =>
    obtain ⟨k2, v2⟩ := p
    simp only [List.map_cons, List.nodup_cons] at hn
    by_cases h2 : k2 = k
    · rw [assocErase_cons, if_pos h2]
      subst h2
      exact assocFind_eq_none_iff.mpr hn.1
    · rw [assocErase_cons, if_neg h2, assocFind_cons, if_neg h2]
      exact ih hn.2

end AssocLemmas

/-! ### Invariants of the cancellation registry -/

/-- The registry holds at most one entry per id string, and every stored
cookie was drawn from NextRequestCookie before its current value. -/
def CancelInvar (s : CancelState) : Prop :=
  (s.requestCancelers.map Prod.fst).Nodup ∧
  ∀ p ∈ s.requestCancelers, p.2.cookie < s.nextRequestCookie

/-- Every entry of the registry under key S carries a cookie above c, and c
is in the past of the cookie counter. -/
def CookieLB (c : Nat) (S : String) (s : CancelState) : Prop :=
  c < s.nextRequestCookie ∧ ∀ p ∈ s.requestCancelers, p.1 = S → c < p.2.cookie

theorem cleanupCancel_eq_none {s : CancelState} {S : String} (c : Nat)
    (hf : assocFind s.requestCancelers S = none) : cleanupCancel s S c = s := by
  unfold cleanupCancel
  rw [hf]

theorem cleanupCancel_eq_some {s : CancelState} {S : String} {e : CancelEntry} (c : Nat)
    (hf : assocFind s.requestCancelers S = some e) :
    cleanupCancel s S c =
      if e.cookie = c then
        { s with requestCancelers := assocErase s.requestCancelers S }
      else s := by
  unfold cleanupCancel
  rw [hf]

theorem onCancel_none (s : CancelState) : onCancel s none = (none, s) := rfl

theorem onCancel_found {s : CancelState} {strID : String} {e : CancelEntry}
    (hf : assocFind s.requestCancelers strID = some e) :
    onCancel s (some strID) = (some e.canceler, s) := by
  show (match assocFind s.requestCancelers strID with
        | some e2 => (some e2.canceler, s)
        | none => (none, s)) = (some e.canceler, s)
  rw [hf]

theorem onCancel_absent {s : CancelState} {strID : String}
    (hf : assocFind s.requestCancelers strID = none) :
    onCancel s (some strID) = (none, s) := by
  show (match assocFind s.requestCancelers strID with
        | some e2 => (some e2.canceler, s)
        | none => (none, s)) = (none, s)
  rw [hf]

theorem cleanupCancel_next (s : CancelState) (S : String) (c : Nat) :
    (cleanupCancel s S c).nextRequestCookie = s.nextRequestCookie := by
  cases hf : assocFind s.requestCancelers S with
  | none => rw [cleanupCancel_eq_none c hf]
  | some e =>
    rw [cleanupCancel_eq_some c hf]
    by_cases hc : e.cookie = c
    · rw [if_pos hc]
    · rw [if_neg hc]

theorem cleanupCancel_mem {s : CancelState} {S : String} {c : Nat} {p : String × CancelEntry}
    (h : p ∈ (cleanupCancel s S c).requestCancelers) : p ∈ s.requestCancelers := by
  cases hf : assocFind s.requestCancelers S with
  | none => rwa [cleanupCancel_eq_none c hf] at h
  | some e =>
    rw [cleanupCancel_eq_some c hf] at h
    by_cases hc : e.cookie = c
    · rw [if_pos hc] at h
      exact mem_assocErase h
    · rwa [if_neg hc] at h

theorem onCancel_state (s : CancelState) (o : Option String) : (onCancel s o).2 = s := by
  cases o with
  | none => rfl
  | some strID =>
    cases hf : assocFind s.requestCancelers strID with
    | none => rw [onCancel_absent hf]
    | some e => rw [onCancel_found hf]

theorem stepCancel_next_le (s : CancelState) (e : CancelEvent) :
    s.nextRequestCookie ≤ (stepCancel s e).nextRequestCookie := by
  cases e with
  | reg strID canceler => exact Nat.le_succ _
  | cleanup strID cookie => exact (cleanupCancel_next s strID cookie).ge
  | cancel idStr => rw [stepCancel, onCancel_state]

theorem stepCancel_invar {s : CancelState} (e : CancelEvent) (h : CancelInvar s) :
    CancelInvar (stepCancel s e) := by
  cases e with
  | reg strID canceler =>
    refine ⟨nodup_keys_assocSet _ _ h.1, fun p hp => ?_⟩
    rcases mem_assocSet hp with hp | hp
    · exact Nat.lt_succ_of_lt (h.2 p hp)
    · rw [hp]; exact Nat.lt_succ_self _
  | cleanup strID cookie =>
    refine ⟨?_, fun p hp => ?_⟩
    · show ((cleanupCancel s strID cookie).requestCancelers.map Prod.fst).Nodup
      cases hf : assocFind s.requestCancelers strID with
      | none => rw [cleanupCancel_eq_none cookie hf]; exact h.1
      | some e2 =>
        rw [cleanupCancel_eq_some cookie hf]
        by_cases hc : e2.cookie = cookie
        · rw [if_pos hc]
          exact nodup_keys_assocErase _ h.1
        · rw [if_neg hc]; exact h.1
    · rw [stepCancel, cleanupCancel_next]
      exact h.2 p (cleanupCancel_mem hp)
  | cancel idStr =>
    rw [stepCancel, onCancel_state]
    exact h

theorem stepCancel_cookieLB {c : Nat} {S : String} {s : CancelState} (e : CancelEvent)
    (h : CookieLB c S s) : CookieLB c S (stepCancel s e) := by
  cases e with
  | reg strID canceler =>
    refine ⟨Nat.lt_succ_of_lt h.1, fun p hp hS => ?_⟩
    rcases mem_assocSet hp with hp | hp
    · exact h.2 p hp hS
    · rw [hp]; exact h.1
  | cleanup strID cookie =>
    refine ⟨by rw [stepCancel, cleanupCancel_next]; exact h.1, fun p hp hS => ?_⟩
    exact h.2 p (cleanupCancel_mem hp) hS
  | cancel idStr =>
    rw [stepCancel, onCancel_state]
    exact h

/-- Registering S installs an entry whose cookie is the current counter; any
older cookie bound c stays strictly below every S entry afterwards. -/
theorem register_establishes_cookieLB {c : Nat} {s : CancelState} (S : String) (k : Nat)
    (hinv : CancelInvar s) (hc : c < s.nextRequestCookie) :
    CookieLB c S (stepCancel s (CancelEvent.reg S k)) := by
  refine ⟨Nat.lt_succ_of_lt hc, fun p hp hS => ?_⟩
  rcases assocSet_mem_nodup hinv.1 hp with hp | hp
  · rw [hp]; exact hc
  · exact absurd hS hp.2

theorem runCancel_pres (P : CancelState → Prop)
    (hstep : ∀ s e, P s → P (stepCancel s e)) :
    ∀ (es : List CancelEvent) (s : CancelState), P s → P (runCancel s es)
  | [], _, h => h
  | e :: es, s, h => runCancel_pres P hstep es (stepCancel s e) (hstep s e h)

theorem runCancel_next_le : ∀ (es : List CancelEvent) (s : CancelState),
    s.nextRequestCookie ≤ (runCancel s es).nextRequestCookie
  | [], _ => le_rfl
  | e :: es, s => (stepCancel_next_le s e).trans (runCancel_next_le es (stepCancel s e))

theorem runCancel_append (s : CancelState) (es1 es2 : List CancelEvent) :
    runCancel s (es1 ++ es2) = runCancel (runCancel s es1) es2 :=
  List.foldl_append ..

theorem cleanupCancel_noop {s : CancelState} {S : String} {c : Nat}
    (h : ∀ e, assocFind s.requestCancelers S = some e → e.cookie ≠ c) :
    cleanupCancel s S c = s := by
  cases hf : assocFind s.requestCancelers S with
  | none => exact cleanupCancel_eq_none c hf
  | some e => rw [cleanupCancel_eq_some c hf, if_neg (h e hf)]

/-- The state reached from a fresh MessageHandler by a sequence of
registrations, scope-exit cleanups and cancellations. -/
def reachCancel (es : List CancelEvent) : CancelState := runCancel initialCancelState es

theorem reachCancel_invar (es : List CancelEvent) : CancelInvar (reachCancel es) :=
  runCancel_pres CancelInvar (fun _ e h => stepCancel_invar e h) es initialCancelState
    ⟨List.nodup_nil, fun p hp => absurd hp (List.not_mem_nil p)⟩

/-- In every state reached from a CancelInvar state by first registering S
(obtaining cookie c1) and then running any continuation that registers S
again, every entry now stored under S has a cookie different from c1. -/
theorem late_register_cookie_ne {s : CancelState} (hinv : CancelInvar s)
    (S : String) (k k2 : Nat) (es2a es2b : List CancelEvent) :
    ∀ e, assocFind (runCancel (registerCancel s S k).2
        (es2a ++ CancelEvent.reg S k2 :: es2b)).requestCancelers S = some e →
      e.cookie ≠ (registerCancel s S k).1 := by
  intro e hfind
  set c1 := (registerCancel s S k).1 with hc1
  have hs1 : (registerCancel s S k).2 = stepCancel s (CancelEvent.reg S k) := rfl
  have hinv1 : CancelInvar (registerCancel s S k).2 := hs1 ▸ stepCancel_invar _ hinv
  have hnext1 : c1 < (registerCancel s S k).2.nextRequestCookie := Nat.lt_succ_self _
  -- run the prefix es2a: the invariant persists and the counter never drops
  have hinva : CancelInvar (runCancel (registerCancel s S k).2 es2a) :=
    runCancel_pres CancelInvar (fun _ e2 h => stepCancel_invar e2 h) es2a _ hinv1
  have hnexta : c1 < (runCancel (registerCancel s S k).2 es2a).nextRequestCookie :=
    Nat.lt_of_lt_of_le hnext1 (runCancel_next_le es2a _)
  -- the repeated registration of S establishes the lower bound, the suffix keeps it
  have hLB : CookieLB c1 S (stepCancel (runCancel (registerCancel s S k).2 es2a)
      (CancelEvent.reg S k2)) :=
    register_establishes_cookieLB S k2 hinva hnexta
  have hLBend : CookieLB c1 S (runCancel (registerCancel s S k).2
      (es2a ++ CancelEvent.reg S k2 :: es2b)) := by
    rw [runCancel_append]
    show CookieLB c1 S (runCancel _ (CancelEvent.reg S k2 :: es2b))
    exact runCancel_pres (CookieLB c1 S) (fun _ e2 h => stepCancel_cookieLB e2 h) es2b _ hLB
  exact Nat.ne_of_gt (hLBend.2 (S, e) (assocFind_mem hfind) rfl)

/-- C1: over any event trace from a fresh handler, the registry keeps at most
one entry per id string; the scope-exit cleanup for (S, c) erases the S entry
exactly when the stored cookie is still c and is a no-op otherwise; and after
registering S (cookie c1) followed by any continuation in which a later call
registers S again, the stale cleanup for (S, c1) is a no-op, so it never
deletes the entry installed by the later call. -/
theorem claim_C1 (es : List CancelEvent) (S : String) (c k k2 : Nat)
    (es2a es2b : List CancelEvent) :
    (((reachCancel es).requestCancelers.map Prod.fst).Nodup)
    ∧ ((∀ e, assocFind (reachCancel es).requestCancelers S = some e → e.cookie ≠ c) →
        cleanupCancel (reachCancel es) S c = reachCancel es)
    ∧ (∀ e, assocFind (reachCancel es).requestCancelers S = some e → e.cookie = c →
        assocFind (cleanupCancel (reachCancel es) S c).requestCancelers S = none)
    ∧ (∀ e, assocFind (runCancel (registerCancel (reachCancel es) S k).2
          (es2a ++ CancelEvent.reg S k2 :: es2b)).requestCancelers S = some e →
        e.cookie ≠ (registerCancel (reachCancel es) S k).1)
    ∧ (cleanupCancel (runCancel (registerCancel (reachCancel es) S k).2
          (es2a ++ CancelEvent.reg S k2 :: es2b)) S (registerCancel (reachCancel es) S k).1
        = runCancel (registerCancel (reachCancel es) S k).2
            (es2a ++ CancelEvent.reg S k2 :: es2b)) := by
  refine ⟨(reachCancel_invar es).1, cleanupCancel_noop, ?_, ?_, ?_⟩
  · intro e hfind hc
    rw [cleanupCancel_eq_some c hfind, if_pos hc]
    exact assocFind_assocErase_self S (reachCancel_invar es).1
  · exact late_register_cookie_ne (reachCancel_invar es) S k k2 es2a es2b
  · exact cleanupCancel_noop (late_register_cookie_ne (reachCancel_invar es) S k k2 es2a es2b)

/-- Witness for C1 at a concrete trace: the cleanup guard is exercised on the
empty registry and on a reused id. -/
theorem claim_C1_witness :
    cleanupCancel (reachCancel []) ("req-1") 5 = reachCancel []
    ∧ cleanupCancel (runCancel (registerCancel (reachCancel []) ("req-1") 3).2
          ([] ++ CancelEvent.reg ("req-1") 4 :: []))
        ("req-1") (registerCancel (reachCancel []) ("req-1") 3).1
      = runCancel (registerCancel (reachCancel []) ("req-1") 3).2
          ([] ++ CancelEvent.reg ("req-1") 4 :: []) :=
  ⟨(claim_C1 [] ("req-1") 5 0 0 [] []).2.1
      (fun e he => by simp [reachCancel, runCancel, initialCancelState] at he),
   (claim_C1 [] ("req-1") 5 3 4 [] []).2.2.2.2⟩

/-! ### Reply guard (ReplyOnce, ClangdLSPServer.cpp:328-391) -/

inductive ErrorCode where
  | serverNotInitialized
  | invalidRequest
  | methodNotFound
  | internalError
  | requestCancelled
deriving DecidableEq

/-- A reply frame: either a result value (abstracted) or an LSPError. -/
inductive ReplyPayload where
  | success (value : Nat)
  | failure (code : ErrorCode)
deriving DecidableEq

/-- The atomic Replied flag of a ReplyOnce (line 329). -/
structure ReplyOnceState where
  replied : Bool
deriving DecidableEq

def freshReplyOnce : ReplyOnceState := ⟨false⟩

/-- ReplyOnce::operator() (lines 368-390): the first invocation flips the
flag and writes one frame via the transport; a later invocation is logged as
a double reply and sends nothing. Returns the new flag state, the transport
log, and whether the double-reply bug was logged. -/
def replyOnceCall (s : ReplyOnceState) (sent : List ReplyPayload) (r : ReplyPayload) :
    ReplyOnceState × List ReplyPayload × Bool :=
  if s.replied then (s, sent, true)
  else (⟨true⟩, sent ++ [r], false)

/-- ReplyOnce::~ReplyOnce (lines 353-366): when the object still owns the
call (not moved from), the server is not being destroyed and nothing was
replied, send an InternalError reply through operator(). -/
def replyOnceDestroy (serverAlive isBeingDestroyed : Bool) (s : ReplyOnceState)
    (sent : List ReplyPayload) : List ReplyPayload :=
  if serverAlive && !isBeingDestroyed && !s.replied then
    (replyOnceCall s sent (ReplyPayload.failure ErrorCode.internalError)).2.1
  else sent

/-- The invocations a handler performs on one ReplyOnce over its lifetime. -/
def runReplies (st : ReplyOnceState × List ReplyPayload) (rs : List ReplyPayload) :
    ReplyOnceState × List ReplyPayload :=
  rs.foldl (fun acc r => ((replyOnceCall acc.1 acc.2 r).1, (replyOnceCall acc.1 acc.2 r).2.1)) st

theorem replyOnceCall_replied (sent : List ReplyPayload) (r : ReplyPayload) :
    replyOnceCall ⟨true⟩ sent r = (⟨true⟩, sent, true) := rfl

theorem runReplies_replied : ∀ (rs : List ReplyPayload) (sent : List ReplyPayload),
    runReplies (⟨true⟩, sent) rs = (⟨true⟩, sent)
  | [], _ => rfl
  | _ :: rs, sent => runReplies_replied rs sent

/-- C2: a ReplyOnce sends at most one frame (exactly the first reply
attempted); once Replied is set, any further invocation is logged and sends
nothing; a destructor run on an unreplied guard while the server is alive and
not being destroyed sends an InternalError frame; so every lifetime ends with
exactly one frame on the transport. -/
theorem claim_C2 (rs : List ReplyPayload) (sent2 : List ReplyPayload) (r2 : ReplyPayload) :
    ((runReplies (freshReplyOnce, []) rs).2 = rs.take 1)
    ∧ (∀ r rest, rs = r :: rest → (runReplies (freshReplyOnce, []) rs).1.replied = true)
    ∧ (replyOnceCall ⟨true⟩ sent2 r2 = (⟨true⟩, sent2, true))
    ∧ (replyOnceDestroy true false (runReplies (freshReplyOnce, []) rs).1
          (runReplies (freshReplyOnce, []) rs).2
        = if rs = [] then [ReplyPayload.failure ErrorCode.internalError] else rs.take 1)
    ∧ ((replyOnceDestroy true false (runReplies (freshReplyOnce, []) rs).1
          (runReplies (freshReplyOnce, []) rs).2).length = 1) := by
  have hrun : runReplies (freshReplyOnce, []) rs
      = if rs = [] then (freshReplyOnce, []) else (⟨true⟩, rs.take 1) := by
    cases rs with
    | nil => rfl
    | cons r rest =>
      have h1 : runReplies (freshReplyOnce, []) (r :: rest)
          = runReplies (⟨true⟩, [r]) rest := rfl
      rw [h1, runReplies_replied]
      simp
  refine ⟨?_, ?_, replyOnceCall_replied sent2 r2, ?_, ?_⟩
  · rw [hrun]
    cases rs with
    | nil => rfl
    | cons r rest => simp
  · intro r rest hrs
    subst hrs
    rw [hrun]
    simp
  · rw [hrun]
    cases rs with
    | nil => rfl
    | cons r rest => simp [replyOnceDestroy]
  · rw [hrun]
    cases rs with
    | nil => rfl
    | cons r rest => simp [replyOnceDestroy]

/-- Witness for C2 with one real reply attempted during the lifetime. -/
theorem claim_C2_witness :
    (runReplies (freshReplyOnce, []) [ReplyPayload.success 7]).1.replied = true :=
  (claim_C2 [ReplyPayload.success 7] [] (ReplyPayload.success 7)).2.1
    (ReplyPayload.success 7) [] rfl

/-! ### Outbound call table (bindReply, ClangdLSPServer.cpp:297-320, 450-455) -/

def MaxReplayCallbacks : Nat := 100

structure CallTable where
  nextCallID : Nat
  replyCallbacks : List (Nat × Nat)   -- (request id, callback token), oldest at the front
deriving DecidableEq

def initialCallTable : CallTable := ⟨0, []⟩

/-- bindReply (lines 297-320): allocate the next id and append the callback;
when the deque then exceeds MaxReplayCallbacks, pop the front (oldest) entry,
whose callback is immediately invoked with the synthesized "failed to receive
a client reply" error. Returns (assigned id, evicted entry if any, table). -/
def bindReply (t : CallTable) (cb : Nat) : Nat × Option (Nat × Nat) × CallTable :=
  let id := t.nextCallID
  let q := t.replyCallbacks ++ [(id, cb)]
  if MaxReplayCallbacks < q.length then
    (id, q.head?, ⟨id + 1, q.tail⟩)
  else
    (id, none, ⟨id + 1, q⟩)

def bindStep (acc : CallTable × List Nat × List (Nat × Nat)) (cb : Nat) :
    CallTable × List Nat × List (Nat × Nat) :=
  ((bindReply acc.1 cb).2.2, acc.2.1 ++ [(bindReply acc.1 cb).1],
    acc.2.2 ++ (bindReply acc.1 cb).2.1.toList)

/-- Successive binds with no intervening onReply: the final table, the ids
handed out in order, and every evicted entry (each invoked with the
synthesized error), oldest first. -/
def bindMany (t : CallTable) (cbs : List Nat) : CallTable × List Nat × List (Nat × Nat) :=
  cbs.foldl bindStep (t, [], [])

theorem bindReply_fst (t : CallTable) (cb : Nat) : (bindReply t cb).1 = t.nextCallID := by
  simp only [bindReply]
  split <;> rfl

theorem bindReply_nextCallID (t : CallTable) (cb : Nat) :
    (bindReply t cb).2.2.nextCallID = t.nextCallID + 1 := by
  simp only [bindReply]
  split <;> rfl

theorem bindMany_go_ids : ∀ (cbs : List Nat) (t : CallTable)
    (ids : List Nat) (evs : List (Nat × Nat)),
    (cbs.foldl bindStep (t, ids, evs)).2.1 = ids ++ List.range' t.nextCallID cbs.length
  | [], t, ids, evs => by simp
  | cb :: cbs, t, ids, evs => by
    rw [List.foldl_cons]
    show (cbs.foldl bindStep (bindStep (t, ids, evs) cb)).2.1 = _
    rw [show bindStep (t, ids, evs) cb
        = ((bindReply t cb).2.2, ids ++ [(bindReply t cb).1],
            evs ++ (bindReply t cb).2.1.toList) from rfl]
    rw [bindMany_go_ids cbs _ _ _, bindReply_nextCallID, bindReply_fst,
      List.length_cons, List.range'_succ, List.append_assoc]
    rfl

set_option maxRecDepth 40000 in
/-- C3: bindReply returns the current counter and bumps it, so successive
binds hand out strictly increasing consecutive ids; and binding 101 callbacks
from a fresh table evicts exactly the first-bound callback (id 0, invoked
with the synthesized error) and leaves exactly the 100 most recently bound
entries (ids 1..100) pending, in order. -/
theorem claim_C3 (t : CallTable) (cb : Nat) (cbs : List Nat) :
    ((bindReply t cb).1 = t.nextCallID)
    ∧ ((bindReply t cb).2.2.nextCallID = t.nextCallID + 1)
    ∧ ((bindMany t cbs).2.1 = List.range' t.nextCallID cbs.length)
    ∧ (List.Pairwise (· < ·) (bindMany t cbs).2.1)
    ∧ (bindMany initialCallTable (List.range 101)
        = (⟨101, (List.range' 1 100).map (fun i => (i, i))⟩, List.range 101, [(0, 0)])) := by
  have hids : (bindMany t cbs).2.1 = List.range' t.nextCallID cbs.length := by
    rw [bindMany, bindMany_go_ids]
    rfl
  refine ⟨bindReply_fst t cb, bindReply_nextCallID t cb, hids, ?_, by decide⟩
  rw [hids]
  exact List.pairwise_lt_range' _ _

set_option maxRecDepth 40000 in
/-- Witness for C3 (the statement quantifies over tables and callback lists
but carries no propositional hypothesis; this instance pins the concrete
101-bind eviction scenario). -/
theorem claim_C3_witness :
    (bindMany initialCallTable (List.range 101)).2.2 = [(0, 0)]
    ∧ (bindMany initialCallTable (List.range 101)).1.replyCallbacks.length = 100 := by
  have h := (claim_C3 initialCallTable 0 []).2.2.2.2
  rw [h]
  decide

/-! ### Dispatch gating (onNotify / onCall / onInitialize,
ClangdLSPServer.cpp:210-253, 494-709, 1657-1746) -/

def initMethod : String := "initialize"

def exitMethod : String := "exit"

def cancelRequestMethod : String := "$/cancelRequest"

structure DispatchState where
  serverUp : Bool                 -- ClangdLSPServer::Server.has_value()
  methodHandlers : List String    -- keys of Handlers.MethodHandlers
  notifHandlers : List String     -- keys of Handlers.NotificationHandlers
deriving DecidableEq

/-- The constructor (lines 1657-1675) binds exactly the initialization
method before the transport loop starts; everything else is bound inside
onInitialize via bindMethods. -/
def initialDispatchState : DispatchState :=
  { serverUp := false, methodHandlers := [initMethod], notifHandlers := [] }

inductive CallOutcome where
  | handled
  | initAccepted
  | errorReply (code : ErrorCode)
deriving DecidableEq

inductive NotifyOutcome where
  | stop
  | handled
  | droppedPreInit
  | canceled
  | unhandledDropped
deriving DecidableEq

/-- onInitialize (lines 494-709): replies InvalidRequest ("server already
initialized") when the server object already exists; otherwise creates it
and binds the remaining handlers (bindMethods, line 658 — the exact set
depends on options and client capabilities, so it is a parameter here). -/
def onInitModel (s : DispatchState) (methods notifs : List String) :
    CallOutcome × DispatchState :=
  if s.serverUp then (.errorReply .invalidRequest, s)
  else (.initAccepted,
    { serverUp := true,
      methodHandlers := s.methodHandlers ++ methods,
      notifHandlers := s.notifHandlers ++ notifs })

/-- onCall (lines 232-253): run the registered handler if any (the entry for
the initialization method is onInitialize); otherwise reply
ServerNotInitialized when the server does not exist yet, MethodNotFound
when it does. -/
def onCall (s : DispatchState) (methods notifs : List String) (m : String) :
    CallOutcome × DispatchState :=
  if m ∈ s.methodHandlers then
    if m = initMethod then onInitModel s methods notifs
    else (.handled, s)
  else if !s.serverUp then (.errorReply .serverNotInitialized, s)
  else (.errorReply .methodNotFound, s)

/-- onNotify (lines 210-230): stop on exit; run the registered handler if
any; else log-and-drop when the server does not exist yet; else route the
cancellation control message to onCancel; else log "unhandled". -/
def onNotify (s : DispatchState) (m : String) : NotifyOutcome :=
  if m = exitMethod then .stop
  else if m ∈ s.notifHandlers then .handled
  else if !s.serverUp then .droppedPreInit
  else if m = cancelRequestMethod then .canceled
  else .unhandledDropped

def callStep (methods notifs : List String) (acc : DispatchState × List CallOutcome)
    (m : String) : DispatchState × List CallOutcome :=
  ((onCall acc.1 methods notifs m).2, acc.2 ++ [(onCall acc.1 methods notifs m).1])

/-- The state and outcome log after a sequence of inbound calls from server
start-up. -/
def runCalls (methods notifs : List String) (ms : List String) :
    DispatchState × List CallOutcome :=
  ms.foldl (callStep methods notifs) (initialDispatchState, [])

/-- Before initialization the only registered call handler is the
initialization method; the initialization method stays registered forever. -/
def DispatchInvar (s : DispatchState) : Prop :=
  initMethod ∈ s.methodHandlers ∧ (s.serverUp = false → s.methodHandlers = [initMethod])

theorem initialDispatch_invar : DispatchInvar initialDispatchState :=
  ⟨List.mem_singleton_self _, fun _ => rfl⟩

theorem onCall_invar {s : DispatchState} (methods notifs : List String) (m : String)
    (h : DispatchInvar s) : DispatchInvar (onCall s methods notifs m).2 := by
  by_cases hm : m ∈ s.methodHandlers
  · by_cases hi : m = initMethod
    · have hm2 : initMethod ∈ s.methodHandlers := hi ▸ hm
      cases hup : s.serverUp
      · have hcall : (onCall s methods notifs m).2 =
            { serverUp := true,
              methodHandlers := s.methodHandlers ++ methods,
              notifHandlers := s.notifHandlers ++ notifs } := by
          simp [onCall, onInitModel, hi, hm2, hup]
        rw [hcall]
        exact ⟨List.mem_append_left _ h.1, fun hf => by simp at hf⟩
      · have hcall : (onCall s methods notifs m).2 = s := by
          simp [onCall, onInitModel, hi, hm2, hup]
        rw [hcall]; exact h
    · have hcall : (onCall s methods notifs m).2 = s := by simp [onCall, hm, hi]
      rw [hcall]; exact h
  · have hcall : (onCall s methods notifs m).2 = s := by
      cases hup : s.serverUp <;> simp [onCall, hm, hup]
    rw [hcall]; exact h

theorem onCall_up {s : DispatchState} (methods notifs : List String) (m : String)
    (h : s.serverUp = true) :
    (onCall s methods notifs m).1 ≠ CallOutcome.initAccepted
    ∧ (onCall s methods notifs m).2.serverUp = true := by
  by_cases hm : m ∈ s.methodHandlers
  · by_cases hi : m = initMethod
    · have hm2 : initMethod ∈ s.methodHandlers := hi ▸ hm
      simp [onCall, onInitModel, hi, hm2, h]
    · simp [onCall, hm, hi, h]
  · simp [onCall, hm, h]

theorem foldlCalls_invar (methods notifs : List String) :
    ∀ (ms : List String) (s : DispatchState) (acc : List CallOutcome),
    DispatchInvar s → DispatchInvar ((ms.foldl (callStep methods notifs) (s, acc)).1)
  | [], _, _, h => h
  | m :: ms, s, acc, h =>
    foldlCalls_invar methods notifs ms (onCall s methods notifs m).2
      (acc ++ [(onCall s methods notifs m).1]) (onCall_invar methods notifs m h)

theorem foldlCalls_count_up (methods notifs : List String) :
    ∀ (ms : List String) (s : DispatchState) (acc : List CallOutcome),
    s.serverUp = true →
    ((ms.foldl (callStep methods notifs) (s, acc)).2.count CallOutcome.initAccepted)
      = acc.count CallOutcome.initAccepted
  | [], _, _, _ => rfl
  | m :: ms, s, acc, h => by
    rw [List.foldl_cons,
      show callStep methods notifs (s, acc) m
        = ((onCall s methods notifs m).2, acc ++ [(onCall s methods notifs m).1]) from rfl,
      foldlCalls_count_up methods notifs ms _ _ ((onCall_up methods notifs m h).2),
      List.count_append]
    simp [List.count_cons, (onCall_up methods notifs m h).1]

theorem foldlCalls_count_le (methods notifs : List String) :
    ∀ (ms : List String) (s : DispatchState) (acc : List CallOutcome),
    DispatchInvar s → s.serverUp = false →
    ((ms.foldl (callStep methods notifs) (s, acc)).2.count CallOutcome.initAccepted)
      ≤ acc.count CallOutcome.initAccepted + 1
  | [], _, acc, _, _ => Nat.le_add_right _ 1
  | m :: ms, s, acc, h, hup => by
    rw [List.foldl_cons,
      show callStep methods notifs (s, acc) m
        = ((onCall s methods notifs m).2, acc ++ [(onCall s methods notifs m).1]) from rfl]
    by_cases hi : m = initMethod
    · have hout : (onCall s methods notifs m).1 = CallOutcome.initAccepted := by
        simp [onCall, h.2 hup, hi, onInitModel, hup]
      have hsup : (onCall s methods notifs m).2.serverUp = true := by
        simp [onCall, h.2 hup, hi, onInitModel, hup]
      rw [foldlCalls_count_up methods notifs ms _ _ hsup, List.count_append, hout]
      simp [List.count_cons]
    · have hout : (onCall s methods notifs m).1
          = CallOutcome.errorReply ErrorCode.serverNotInitialized := by
        simp [onCall, h.2 hup, hi, hup]
      have hst : (onCall s methods notifs m).2 = s := by
        simp [onCall, h.2 hup, hi, hup]
      rw [hst]
      refine le_trans (foldlCalls_count_le methods notifs ms s _ h hup) ?_
      rw [List.count_append, hout]
      simp [List.count_cons]

/-- C4: from server start-up, any call whose method is not the
initialization method that arrives while the server object does not yet
exist is answered ServerNotInitialized; the initialization call itself is
accepted then (and brings the server up); once the server exists a repeated
initialization call is answered InvalidRequest; and no trace ever accepts
the initialization call more than once. -/
theorem claim_C4 (methods notifs : List String) (ms : List String) (m : String) :
    ((runCalls methods notifs ms).1.serverUp = false → m ≠ initMethod →
      (onCall (runCalls methods notifs ms).1 methods notifs m).1
        = CallOutcome.errorReply ErrorCode.serverNotInitialized)
    ∧ ((runCalls methods notifs ms).1.serverUp = false →
      (onCall (runCalls methods notifs ms).1 methods notifs initMethod).1
          = CallOutcome.initAccepted
        ∧ (onCall (runCalls methods notifs ms).1 methods notifs initMethod).2.serverUp
          = true)
    ∧ ((runCalls methods notifs ms).1.serverUp = true →
      (onCall (runCalls methods notifs ms).1 methods notifs initMethod).1
        = CallOutcome.errorReply ErrorCode.invalidRequest)
    ∧ ((runCalls methods notifs ms).2.count CallOutcome.initAccepted ≤ 1) := by
  have hinv : DispatchInvar (runCalls methods notifs ms).1 :=
    foldlCalls_invar methods notifs ms initialDispatchState [] initialDispatch_invar
  refine ⟨?_, ?_, ?_, ?_⟩
  · intro hup hm
    simp [onCall, hinv.2 hup, hm, hup]
  · intro hup
    constructor <;> simp [onCall, hinv.2 hup, onInitModel, hup]
  · intro hup
    simp [onCall, hinv.1, onInitModel, hup]
  · exact foldlCalls_count_le methods notifs ms initialDispatchState []
      initialDispatch_invar rfl

/-- Witness for C4: with no calls dispatched yet, a non-initialization call
is rejected as not initialized and the initialization call is accepted. -/
theorem claim_C4_witness :
    (onCall (runCalls [] [] []).1 [] [] ("shutdown")).1
      = CallOutcome.errorReply ErrorCode.serverNotInitialized
    ∧ (onCall (runCalls [] [] []).1 [] [] initMethod).1 = CallOutcome.initAccepted :=
  ⟨(claim_C4 [] [] [] ("shutdown")).1 (by decide) (by decide),
   ((claim_C4 [] [] [] ("shutdown")).2.1 (by decide)).1⟩

/-- C5 (as written) is refuted: onNotify checks for a missing server before
it checks for the cancellation control message (lines 222-225), so an
unregistered cancellation notification arriving before initialization is
logged and dropped, not routed to onCancel. -/
theorem claim_C5_counterexample :
    onNotify initialDispatchState cancelRequestMethod = NotifyOutcome.droppedPreInit
    ∧ onNotify initialDispatchState cancelRequestMethod ≠ NotifyOutcome.canceled := by
  constructor
  · rfl
  · intro h
    exact absurd h (by decide)

/-- C5 amended: an unregistered, non-exit notification is routed to the
cancellation registry's invoke-by-id path exactly when the server exists and
the method is the cancellation control message; before initialization every
unregistered non-exit notification — the cancellation message included — is
logged and dropped. -/
theorem claim_C5 (s : DispatchState) (m : String)
    (h1 : m ∉ s.notifHandlers) (h2 : m ≠ exitMethod) :
    (onNotify s m = NotifyOutcome.canceled
      ↔ (s.serverUp = true ∧ m = cancelRequestMethod))
    ∧ (onNotify s m = NotifyOutcome.droppedPreInit ↔ s.serverUp = false) := by
  by_cases hc : m = cancelRequestMethod
  · subst hc
    cases hup : s.serverUp <;> simp [onNotify, h1, h2, hup]
  · cases hup : s.serverUp <;> simp [onNotify, h1, h2, hup, hc]

/-- Witness for C5 amended: once the server is up, the unregistered
cancellation notification is routed to the cancellation path. -/
theorem claim_C5_witness :
    onNotify ⟨true, [], []⟩ cancelRequestMethod = NotifyOutcome.canceled :=
  ((claim_C5 ⟨true, [], []⟩ cancelRequestMethod (by decide) (by decide)).1).mpr
    ⟨rfl, rfl⟩

/-! ### Decimal string increment (ClangdLSPServer.cpp:1573-1583) -/

/-- The loop of increment acting on the reversed character list: the C++
code walks the string from its last character backwards, turning 9s into 0s
until a non-9 digit can be bumped; running off the front inserts a
leading 1. -/
def incRev : List Char → List Char
  | [] => ['1']
  | c :: rest => if c = '9' then '0' :: incRev rest else Char.ofNat (c.toNat + 1) :: rest

/-- increment (lines 1574-1583): decimal increment of a numeric string,
"" -> 1 -> 2 -> ... -> 9 -> 10 -> 11 ... -/
def increment (s : String) : String := String.mk ((incRev s.data.reverse).reverse)

/-- A decimal digit as a character. -/
def digitChar (d : Nat) : Char := Char.ofNat (48 + d)

/-- A character back to its digit value. -/
def charVal (c : Char) : Nat := c.toNat - 48

/-- The canonical decimal numeral of n, most significant digit first and
with no leading zeros; zero is the empty string, matching the initial
resultId "". -/
def decRepr (n : Nat) : String := String.mk (((Nat.digits 10 n).map digitChar).reverse)

@[simp] theorem incRev_nil : incRev [] = ['1'] := rfl

theorem incRev_cons (c : Char) (rest : List Char) :
    incRev (c :: rest) =
      if c = '9' then '0' :: incRev rest else Char.ofNat (c.toNat + 1) :: rest := rfl

theorem digitChar_toNat {d : Nat} (h : d < 10) : (digitChar d).toNat = 48 + d := by
  interval_cases d <;> decide

theorem charVal_digitChar {d : Nat} (h : d < 10) : charVal (digitChar d) = d := by
  interval_cases d <;> decide

theorem digitChar_eq_nine_iff {d : Nat} (h : d < 10) : digitChar d = '9' ↔ d = 9 := by
  interval_cases d <;> decide

/-- Digit-wise increment of the little-endian digit string is the digit
string of the successor. -/
theorem incRev_digits : ∀ n : Nat,
    incRev ((Nat.digits 10 n).map digitChar) = (Nat.digits 10 (n + 1)).map digitChar := by
  intro n
  induction n using Nat.strong_induction_on with
  | _ n ih =>
    rcases Nat.eq_zero_or_pos n with rfl | hn
    · norm_num
      decide
    · rw [Nat.digits_def' (by norm_num : (1:ℕ) < 10) hn, List.map_cons, incRev_cons]
      have hd : n % 10 < 10 := Nat.mod_lt _ (by norm_num)
      by_cases h9 : n % 10 = 9
      · rw [if_pos ((digitChar_eq_nine_iff hd).mpr h9),
          ih (n / 10) (Nat.div_lt_self hn (by norm_num))]
        have h1 : (n + 1) % 10 = 0 := by omega
        have h2 : (n + 1) / 10 = n / 10 + 1 := by omega
        rw [Nat.digits_def' (by norm_num : (1:ℕ) < 10) (Nat.succ_pos n), h1, h2,
          List.map_cons]
        congr 1
      · rw [if_neg (fun hc => h9 ((digitChar_eq_nine_iff hd).mp hc))]
        have h1 : (n + 1) % 10 = n % 10 + 1 := by omega
        have h2 : (n + 1) / 10 = n / 10 := by omega
        rw [Nat.digits_def' (by norm_num : (1:ℕ) < 10) (Nat.succ_pos n), h1, h2,
          List.map_cons]
        congr 1
        rw [digitChar_toNat hd]
        show Char.ofNat (48 + n % 10 + 1) = Char.ofNat (48 + (n % 10 + 1))
        rw [Nat.add_assoc]

theorem increment_decRepr (n : Nat) : increment (decRepr n) = decRepr (n + 1) := by
  show String.mk ((incRev (((Nat.digits 10 n).map digitChar).reverse).reverse).reverse)
      = String.mk (((Nat.digits 10 (n + 1)).map digitChar).reverse)
  rw [List.reverse_reverse, incRev_digits]

theorem map_charVal_digitChar (n : Nat) :
    ((Nat.digits 10 n).map digitChar).map charVal = Nat.digits 10 n := by
  rw [List.map_map]
  have h : ∀ d ∈ Nat.digits 10 n, (charVal ∘ digitChar) d = id d := fun d hd =>
    charVal_digitChar (Nat.digits_lt_base (by norm_num) hd)
  rw [List.map_congr_left h, List.map_id]

theorem decRepr_injective : Function.Injective decRepr := by
  intro a b hab
  have h1 : ((Nat.digits 10 a).map digitChar).reverse
      = ((Nat.digits 10 b).map digitChar).reverse := congrArg String.data hab
  have h2 : (Nat.digits 10 a).map digitChar = (Nat.digits 10 b).map digitChar :=
    List.reverse_injective h1
  have h3 : Nat.digits 10 a = Nat.digits 10 b := by
    rw [← map_charVal_digitChar a, h2, map_charVal_digitChar b]
  exact Nat.digits.injective 10 h3

theorem decRepr_head_ne_zero {n : Nat} (hn : 0 < n) :
    ∀ c, (decRepr n).data.head? = some c → c ≠ '0' := by
  intro c hc
  have hne : Nat.digits 10 n ≠ [] := Nat.digits_ne_nil_iff_ne_zero.mpr (by omega)
  rw [show (decRepr n).data = ((Nat.digits 10 n).map digitChar).reverse from rfl,
    List.head?_reverse, List.getLast?_map,
    List.getLast?_eq_getLast_of_ne_nil hne, Option.map_some'] at hc
  have hceq : c = digitChar ((Nat.digits 10 n).getLast hne) := (Option.some_inj.mp hc).symm
  have hd10 : (Nat.digits 10 n).getLast hne < 10 :=
    Nat.digits_lt_base (by norm_num) (List.getLast_mem hne)
  have hd0 : (Nat.digits 10 n).getLast hne ≠ 0 :=
    Nat.getLast_digit_ne_zero 10 (by omega)
  rw [hceq]
  revert hd0
  generalize (Nat.digits 10 n).getLast hne = d at hd10
  intro hd0
  interval_cases d <;> simp_all <;> decide

theorem iterate_increment (k : Nat) : increment^[k] (String.mk []) = decRepr k := by
  induction k with
  | zero =>
    show String.mk [] = decRepr 0
    simp [decRepr]
  | succ k ih => rw [Function.iterate_succ_apply', ih, increment_decRepr]

/-- C8: increment maps the canonical decimal numeral of n (with "" denoting
zero, and also from "0") to the numeral of n + 1; "" becomes "1" and "9"
becomes "10"; iterating from "" enumerates the numerals of 0, 1, 2, ...,
which are pairwise distinct and never have a leading zero, with no overflow
bound anywhere. -/
theorem claim_C8 (n k : Nat) :
    (increment (decRepr n) = decRepr (n + 1))
    ∧ (increment (String.mk []) = decRepr 1 ∧ decRepr 1 = "1")
    ∧ (increment ("0") = "1")
    ∧ (increment ("9") = "10")
    ∧ (increment^[k] (String.mk []) = decRepr k)
    ∧ (Function.Injective decRepr)
    ∧ (0 < n → ∀ c, (decRepr n).data.head? = some c → c ≠ '0') := by
  refine ⟨increment_decRepr n, ⟨?_, ?_⟩, by decide, by decide, iterate_increment k,
    decRepr_injective, fun hn => decRepr_head_ne_zero hn⟩
  · rw [show String.mk [] = decRepr 0 from by simp [decRepr]]
    exact increment_decRepr 0
  · norm_num [decRepr]
    decide

/-- Witness for C8 at n = 3: the numeral of 3 increments to the numeral of 4
and its leading character is not a zero. -/
theorem claim_C8_witness :
    increment (decRepr 3) = decRepr 4 ∧ ('3' : Char) ≠ '0' :=
  ⟨(claim_C8 3 0).1,
   (claim_C8 3 0).2.2.2.2.2.2 (by norm_num) '3' (by norm_num [decRepr, digitChar])⟩

/-! ### Semantic token versioning (onSemanticTokens / onSemanticTokensDelta,
ClangdLSPServer.cpp:1585-1642) -/

/-- A per-file entry of LastSemanticTokens; StringMap operator[]
default-constructs a missing entry to empty tokens and resultId "". The
tokens themselves are opaque. -/
structure TokensState where
  tokens : List Nat
  resultId : String
deriving DecidableEq

def emptyTokens : TokensState := ⟨[], ""⟩

def lastTokens (m : List (String × TokensState)) (file : String) : TokensState :=
  (assocFind m file).getD emptyTokens

/-- SemanticTokensOrDelta: the new resultId plus either an edit list or a
full token list (the C++ sets exactly one of the two optionals). -/
structure SemTokensOrDelta where
  resultId : String
  edits : Option (List Nat)
  tokens : Option (List Nat)
deriving DecidableEq

/-- onSemanticTokensDelta (lines 1608-1642). diffTokens lives in
SemanticHighlighting.cpp (not part of these sources), so the delta
computation is an arbitrary function parameter. -/
def onSemanticTokensDelta (diff : List Nat → List Nat → List Nat)
    (m : List (String × TokensState)) (file prevId : String) (toks : List Nat) :
    SemTokensOrDelta × List (String × TokensState) :=
  let last := lastTokens m file
  let newId := increment last.resultId
  if prevId = last.resultId then
    (⟨newId, some (diff last.tokens toks), none⟩, assocSet m file ⟨toks, newId⟩)
  else
    (⟨newId, none, some toks⟩, assocSet m file ⟨toks, newId⟩)

/-- onSemanticTokens (lines 1585-1606): always the full token list, with the
same stored-state update; returns (tokens, resultId). -/
def onSemanticTokens (m : List (String × TokensState)) (file : String) (toks : List Nat) :
    (List Nat × String) × List (String × TokensState) :=
  let last := lastTokens m file
  let newId := increment last.resultId
  ((toks, newId), assocSet m file ⟨toks, newId⟩)

theorem lastTokens_assocSet_self (m : List (String × TokensState)) (file : String)
    (v : TokensState) : lastTokens (assocSet m file v) file = v := by
  rw [lastTokens, assocFind_assocSet_self]
  rfl

/-- C7: the delta endpoint answers with an edit list exactly when the
client's previousResultId equals the stored resultId (the edit list relating
the stored tokens to the new ones), and with the full token list otherwise;
in both cases — and likewise for the full-tokens endpoint — the stored entry
becomes the new token sequence with the incremented resultId, and that new
resultId is what is returned. -/
theorem claim_C7 (diff : List Nat → List Nat → List Nat)
    (m : List (String × TokensState)) (file prevId : String) (toks : List Nat) :
    ((onSemanticTokensDelta diff m file prevId toks).1.edits.isSome
      ↔ prevId = (lastTokens m file).resultId)
    ∧ ((onSemanticTokensDelta diff m file prevId toks).1.tokens.isSome
      ↔ prevId ≠ (lastTokens m file).resultId)
    ∧ (prevId = (lastTokens m file).resultId →
        (onSemanticTokensDelta diff m file prevId toks).1.edits
          = some (diff (lastTokens m file).tokens toks))
    ∧ (prevId ≠ (lastTokens m file).resultId →
        (onSemanticTokensDelta diff m file prevId toks).1.tokens = some toks)
    ∧ ((onSemanticTokensDelta diff m file prevId toks).1.resultId
        = increment (lastTokens m file).resultId)
    ∧ (lastTokens (onSemanticTokensDelta diff m file prevId toks).2 file
        = ⟨toks, increment (lastTokens m file).resultId⟩)
    ∧ ((onSemanticTokens m file toks).1
        = (toks, increment (lastTokens m file).resultId))
    ∧ (lastTokens (onSemanticTokens m file toks).2 file
        = ⟨toks, increment (lastTokens m file).resultId⟩) := by
  by_cases h : prevId = (lastTokens m file).resultId <;>
    simp [onSemanticTokensDelta, onSemanticTokens, h, lastTokens_assocSet_self]

/-- Witness for C7: on a fresh document the client citing "" gets a delta
and the stored resultId becomes "1"; citing a stale id gets the full list. -/
theorem claim_C7_witness :
    ((onSemanticTokensDelta (fun _ new => new) [] ("f.cpp") ("") [1, 2]).1.edits
      = some [1, 2])
    ∧ ((onSemanticTokensDelta (fun _ new => new) [] ("f.cpp") ("stale") [1, 2]).1.tokens
      = some [1, 2]) :=
  ⟨(claim_C7 (fun _ new => new) [] ("f.cpp") ("") [1, 2]).2.2.1 rfl,
   (claim_C7 (fun _ new => new) [] ("f.cpp") ("stale") [1, 2]).2.2.2.1 (by decide)⟩

/-! ### Diagnostic cross-reference cache (onDiagnosticsReady / getDiagRef,
ClangdLSPServer.cpp:1770-1840) -/

/-- An LSP diagnostic as the key derivation sees it; ranges and severities
are opaque tokens. -/
structure LSPDiag where
  range : Nat
  message : String
  severity : Nat
deriving DecidableEq

/-- Modelled from the spec: toDiagKey is declared in ClangdLSPServer.h,
which is not among these sources; the spec says diagnostics are keyed by "a
stable identity derived from the diagnostic's range, message, and
severity/category". -/
structure DiagKey where
  range : Nat
  message : String
  severity : Nat
deriving DecidableEq

def toDiagKey (d : LSPDiag) : DiagKey := ⟨d.range, d.message, d.severity⟩

/-- ClangdServer::DiagRef — the original diagnostic's range and message. -/
structure DiagRef where
  range : Nat
  message : String
deriving DecidableEq

/-- The loop body of onDiagnosticsReady (lines 1813-1830): each published
LSP diagnostic is recorded in the fresh LocalDiagMap under its key, mapped
to the originating diagnostic's DiagRef. -/
def buildDiagMap (ds : List (LSPDiag × DiagRef)) : List (DiagKey × DiagRef) :=
  ds.foldl (fun acc p => assocSet acc (toDiagKey p.1) p.2) []

/-- onDiagnosticsReady (lines 1808-1840): build the fresh table and replace
the file's entry wholesale. ds lists the published diagnostics with their
DiagRefs. -/
def onDiagnosticsReady (drm : List (String × List (DiagKey × DiagRef)))
    (file : String) (ds : List (LSPDiag × DiagRef)) :
    List (String × List (DiagKey × DiagRef)) :=
  assocSet drm file (buildDiagMap ds)

/-- getDiagRef (lines 1770-1783): two-level lookup, none at either miss. -/
def getDiagRef (drm : List (String × List (DiagKey × DiagRef)))
    (file : String) (d : LSPDiag) : Option DiagRef :=
  match assocFind drm file with
  | none => none
  | some m => assocFind m (toDiagKey d)

theorem getDiagRef_found {drm : List (String × List (DiagKey × DiagRef))}
    {file : String} {m : List (DiagKey × DiagRef)}
    (hf : assocFind drm file = some m) (d : LSPDiag) :
    getDiagRef drm file d = assocFind m (toDiagKey d) := by
  show (match assocFind drm file with
        | none => none
        | some m2 => assocFind m2 (toDiagKey d)) = _
  rw [hf]

theorem buildDiagMap_go_not_mem :
    ∀ (ds : List (LSPDiag × DiagRef)) (acc : List (DiagKey × DiagRef)) (k : DiagKey),
    k ∉ ds.map (fun p => toDiagKey p.1) →
    assocFind (ds.foldl (fun a p => assocSet a (toDiagKey p.1) p.2) acc) k = assocFind acc k
  | [], _, _, _ => rfl
  | p :: ds, acc, k, h => by
    rw [List.map_cons, List.mem_cons, not_or] at h
    rw [List.foldl_cons, buildDiagMap_go_not_mem ds _ k h.2]
    exact assocFind_assocSet_ne _ _ _ _ h.1

theorem buildDiagMap_go_mem :
    ∀ (ds : List (LSPDiag × DiagRef)) (acc : List (DiagKey × DiagRef))
      (d : LSPDiag) (r : DiagRef), (d, r) ∈ ds →
    (ds.map (fun p => toDiagKey p.1)).Nodup →
    assocFind (ds.foldl (fun a p => assocSet a (toDiagKey p.1) p.2) acc) (toDiagKey d) = some r
  | [], _, _, _, h, _ => absurd h (List.not_mem_nil _)
  | p :: ds, acc, d, r, h, hn => by
    rw [List.map_cons, List.nodup_cons] at hn
    rw [List.foldl_cons]
    rcases List.mem_cons.mp h with h | h
    · subst h
      rw [buildDiagMap_go_not_mem ds _ _ hn.1]
      exact assocFind_assocSet_self _ _ _
    · exact buildDiagMap_go_mem ds _ d r h hn.2

/-- C9: after a publication for file F, getDiagRef resolves every published
diagnostic (keyed by range/message/severity) to its stored DiagRef; after a
subsequent publication for F the table is replaced wholesale, so any key not
among the new publication's keys no longer resolves. -/
theorem claim_C9 (drm : List (String × List (DiagKey × DiagRef))) (file : String)
    (ds ds2 : List (LSPDiag × DiagRef)) (d : LSPDiag) (r : DiagRef) :
    ((ds.map (fun p => toDiagKey p.1)).Nodup → (d, r) ∈ ds →
      getDiagRef (onDiagnosticsReady drm file ds) file d = some r)
    ∧ (toDiagKey d ∉ ds2.map (fun p => toDiagKey p.1) →
      getDiagRef (onDiagnosticsReady (onDiagnosticsReady drm file ds) file ds2) file d
        = none) := by
  unfold onDiagnosticsReady
  constructor
  · intro hn hmem
    rw [getDiagRef_found (assocFind_assocSet_self drm file _) d]
    exact buildDiagMap_go_mem ds [] d r hmem hn
  · intro hk
    rw [getDiagRef_found (assocFind_assocSet_self _ file _) d, buildDiagMap,
      buildDiagMap_go_not_mem ds2 [] _ hk]
    rfl

/-- Witness for C9: one published diagnostic resolves to its DiagRef, and
after an empty republication it no longer resolves. -/
theorem claim_C9_witness :
    getDiagRef (onDiagnosticsReady [] ("a.cpp") [(⟨1, "unused x", 2⟩, ⟨1, "unused variable x"⟩)])
        ("a.cpp") ⟨1, "unused x", 2⟩ = some ⟨1, "unused variable x"⟩
    ∧ getDiagRef (onDiagnosticsReady
          (onDiagnosticsReady [] ("a.cpp") [(⟨1, "unused x", 2⟩, ⟨1, "unused variable x"⟩)])
          ("a.cpp") []) ("a.cpp") ⟨1, "unused x", 2⟩ = none :=
  ⟨(claim_C9 [] ("a.cpp") [(⟨1, "unused x", 2⟩, ⟨1, "unused variable x"⟩)] []
      ⟨1, "unused x", 2⟩ ⟨1, "unused variable x"⟩).1 (by decide) (by decide),
   (claim_C9 [] ("a.cpp") [(⟨1, "unused x", 2⟩, ⟨1, "unused variable x"⟩)] []
      ⟨1, "unused x", 2⟩ ⟨1, "unused variable x"⟩).2 (by decide)⟩

/-! ### Version encode/decode (ClangdLSPServer.cpp:64-74) -/

/-- llvm::to_string of a nonnegative int64: the usual decimal rendering
(zero is "0"). -/
def natToString (n : Nat) : String := if n = 0 then "0" else decRepr n

/-- llvm::to_string of an int64: a minus sign before the magnitude for
negative values. -/
def intToString (v : Int) : String :=
  if v < 0 then String.mk ('-' :: (natToString v.natAbs).data) else natToString v.toNat

/-- encodeVersion (lines 64-66): an absent version encodes as "". -/
def encodeVersion (v : Option Int) : String :=
  match v with
  | some x => intToString x
  | none => String.mk []

/-- One digit of llvm::getAsUnsignedInteger at radix 10. -/
def digitVal? (c : Char) : Option Nat :=
  if 48 ≤ c.toNat ∧ c.toNat ≤ 57 then some (c.toNat - 48) else none

def parseNatAux : Nat → List Char → Option Nat
  | acc, [] => some acc
  | acc, c :: cs =>
    match digitVal? c with
    | some d => parseNatAux (acc * 10 + d) cs
    | none => none

/-- llvm::getAsUnsignedInteger over the whole string, radix 10: at least one
character, digits only. (Its uint64 overflow cutoff is subsumed by the
stricter int64 range checks of decodeVersionCore: both reject exactly the
out-of-range strings.) -/
def parseNat (cs : List Char) : Option Nat :=
  if cs = [] then none else parseNatAux 0 cs

/-- llvm::to_integer<int64_t>(Encoded, Result, 10), i.e.
StringRef::consumeSignedInteger plus the full-consumption check: a leading
minus parses the remainder as a magnitude of at most 2^63; otherwise the
value must lie below 2^63. -/
def decodeVersionCore (s : String) : Option Int :=
  match s.data with
  | [] => none
  | c :: rest =>
    if c = '-' then
      (parseNat rest).bind fun n => if n ≤ 2 ^ 63 then some (-(n : Int)) else none
    else
      (parseNat (c :: rest)).bind fun n => if n < 2 ^ 63 then some ((n : Int)) else none

/-- decodeVersion (lines 67-74): parse failures yield nullopt, and the
"unexpected non-numeric version" error is logged only when the string is
nonempty. The Bool records whether the error was logged. -/
def decodeVersion (s : String) : Option Int × Bool :=
  match decodeVersionCore s with
  | some v => (some v, false)
  | none => (none, if s = String.mk [] then false else true)

theorem decodeVersion_eq_some {s : String} {v : Int}
    (h : decodeVersionCore s = some v) : decodeVersion s = (some v, false) := by
  show (match decodeVersionCore s with
        | some v2 => (some v2, false)
        | none => (none, if s = String.mk [] then false else true)) = _
  rw [h]

theorem decodeVersionCore_data {s : String} {c : Char} {cs : List Char}
    (h : s.data = c :: cs) :
    decodeVersionCore s =
      if c = '-' then
        (parseNat cs).bind (fun n => if n ≤ 2 ^ 63 then some (-(n : Int)) else none)
      else
        (parseNat (c :: cs)).bind (fun n => if n < 2 ^ 63 then some ((n : Int)) else none) := by
  show (match s.data with
        | [] => none
        | c2 :: rest =>
          if c2 = '-' then
            (parseNat rest).bind fun n => if n ≤ 2 ^ 63 then some (-(n : Int)) else none
          else
            (parseNat (c2 :: rest)).bind fun n =>
              if n < 2 ^ 63 then some ((n : Int)) else none) = _
  rw [h]

theorem parseNatAux_append (xs ys : List Char) :
    ∀ acc, parseNatAux acc (xs ++ ys)
      = (parseNatAux acc xs).bind (fun a => parseNatAux a ys) := by
  induction xs with
  | nil => intro acc; rfl
  | cons c cs ih =>
    intro acc
    show (match digitVal? c with
          | some d => parseNatAux (acc * 10 + d) (cs ++ ys)
          | none => none)
        = (match digitVal? c with
          | some d => parseNatAux (acc * 10 + d) cs
          | none => none).bind (fun a => parseNatAux a ys)
    cases hd : digitVal? c with
    | some d => exact ih (acc * 10 + d)
    | none => rfl

theorem digitVal_digitChar {d : Nat} (h : d < 10) : digitVal? (digitChar d) = some d := by
  interval_cases d <;> decide

theorem parseNatAux_revDigits :
    ∀ (L : List Nat), (∀ d ∈ L, d < 10) → ∀ acc,
    parseNatAux acc ((L.map digitChar).reverse)
      = some (acc * 10 ^ L.length + Nat.ofDigits 10 L)
  | [], _, acc => by simp [parseNatAux, Nat.ofDigits_nil]
  | d :: L, h, acc => by
    rw [List.map_cons, List.reverse_cons, parseNatAux_append,
      parseNatAux_revDigits L (fun x hx => h x (List.mem_cons_of_mem _ hx)) acc]
    have hd : d < 10 := h d (List.mem_cons_self _ _)
    show parseNatAux _ [digitChar d] = _
    show (match digitVal? (digitChar d) with
          | some d2 => parseNatAux ((acc * 10 ^ L.length + Nat.ofDigits 10 L) * 10 + d2) []
          | none => none) = _
    rw [digitVal_digitChar hd]
    show some ((acc * 10 ^ L.length + Nat.ofDigits 10 L) * 10 + d) = _
    rw [Nat.ofDigits_cons, List.length_cons, pow_succ]
    congr 1
    ring

theorem parseNat_decRepr {n : Nat} (hn : 0 < n) : parseNat (decRepr n).data = some n := by
  have hne : Nat.digits 10 n ≠ [] := Nat.digits_ne_nil_iff_ne_zero.mpr (by omega)
  have hdne : (decRepr n).data ≠ [] := by
    show ((Nat.digits 10 n).map digitChar).reverse ≠ []
    simpa using hne
  rw [parseNat, if_neg hdne]
  show parseNatAux 0 (((Nat.digits 10 n).map digitChar).reverse) = some n
  rw [parseNatAux_revDigits (Nat.digits 10 n)
    (fun x hx => Nat.digits_lt_base (by norm_num) hx) 0]
  simp [Nat.ofDigits_digits]

theorem parseNat_natToString (n : Nat) : parseNat (natToString n).data = some n := by
  by_cases h : n = 0
  · subst h; decide
  · rw [natToString, if_neg h]
    exact parseNat_decRepr (Nat.pos_of_ne_zero h)

theorem natToString_head_ne_minus (n : Nat) :
    ∀ c cs, (natToString n).data = c :: cs → c ≠ '-' := by
  intro c cs h hc
  subst hc
  have hmem : '-' ∈ (natToString n).data := h ▸ List.mem_cons_self _ _
  by_cases h0 : n = 0
  · subst h0
    revert hmem
    decide
  · rw [natToString, if_neg h0] at hmem
    rw [show (decRepr n).data = ((Nat.digits 10 n).map digitChar).reverse from rfl,
      List.mem_reverse] at hmem
    obtain ⟨d, hd, hdc⟩ := List.mem_map.mp hmem
    have hd10 : d < 10 := Nat.digits_lt_base (by norm_num) hd
    interval_cases d <;> exact absurd hdc (by decide)

/-- C10: decodeVersion inverts encodeVersion on every int64 value, and an
absent version round-trips through "" without logging an error. -/
theorem claim_C10 (v : Int) :
    (-(2 ^ 63) ≤ v → v < 2 ^ 63 →
      decodeVersion (encodeVersion (some v)) = (some v, false))
    ∧ (decodeVersion (encodeVersion none) = (none, false)) := by
  refine ⟨fun hlo hhi => ?_, rfl⟩
  by_cases hneg : v < 0
  · -- negative: "-" ++ magnitude
    have henc : encodeVersion (some v) = String.mk ('-' :: (natToString v.natAbs).data) := by
      show intToString v = _
      rw [intToString, if_pos hneg]
    rw [henc]
    refine decodeVersion_eq_some ?_
    rw [decodeVersionCore_data rfl, if_pos rfl, parseNat_natToString]
    have hle : v.natAbs ≤ 2 ^ 63 := by
      have h63 : ((2 : Int) ^ 63) = ((2 ^ 63 : Nat) : Int) := by push_cast
      omega
    rw [Option.some_bind, if_pos hle]
    congr 1
    omega
  · -- nonnegative: plain magnitude
    have henc : encodeVersion (some v) = natToString v.toNat := by
      show intToString v = _
      rw [intToString, if_neg hneg]
    rw [henc]
    refine decodeVersion_eq_some ?_
    cases hdata : (natToString v.toNat).data with
    | nil =>
      have hp := parseNat_natToString v.toNat
      rw [hdata, show parseNat [] = none from by decide] at hp
      exact Option.noConfusion hp
    | cons c cs =>
      rw [decodeVersionCore_data hdata,
        if_neg (natToString_head_ne_minus v.toNat c cs hdata), ← hdata,
        parseNat_natToString]
      have hlt : v.toNat < 2 ^ 63 := by
        have h63 : ((2 : Int) ^ 63) = ((2 ^ 63 : Nat) : Int) := by push_cast
        omega
      rw [Option.some_bind, if_pos hlt]
      congr 1
      omega

/-- Witness for C10 at v = -7. -/
theorem claim_C10_witness :
    decodeVersion (encodeVersion (some (-7))) = (some (-7), false) :=
  (claim_C10 (-7)).1 (by norm_num) (by norm_num)

/-- C6: onCancel with an id present in the registry reports that entry's
canceler and leaves the whole state unchanged; with an absent id (or a
malformed request carrying no id) it reports no canceler and leaves the
state unchanged. -/
theorem claim_C6 (s : CancelState) (strID : String) (o : Option String) :
    (∀ e, assocFind s.requestCancelers strID = some e →
        onCancel s (some strID) = (some e.canceler, s))
    ∧ (assocFind s.requestCancelers strID = none →
        onCancel s (some strID) = (none, s))
    ∧ ((onCancel s o).2 = s) :=
  ⟨fun _ hf => onCancel_found hf, fun hf => onCancel_absent hf, onCancel_state s o⟩

/-- Witness for C6: a registry holding id "9" with canceler token 42; the
canceler is reported for "9", nothing is reported for "other", and the state
is untouched in both cases. -/
theorem claim_C6_witness :
    onCancel ⟨[(("9"), ⟨42, 0⟩)], 1⟩ (some ("9"))
        = (some 42, (⟨[(("9"), ⟨42, 0⟩)], 1⟩ : CancelState))
    ∧ onCancel ⟨[(("9"), ⟨42, 0⟩)], 1⟩ (some ("other"))
        = (none, (⟨[(("9"), ⟨42, 0⟩)], 1⟩ : CancelState)) :=
  ⟨(claim_C6 ⟨[(("9"), ⟨42, 0⟩)], 1⟩ ("9") none).1 ⟨42, 0⟩ (by decide),
   (claim_C6 ⟨[(("9"), ⟨42, 0⟩)], 1⟩ ("other") none).2.1 (by decide)⟩

end ClangdLSP
